import Mathlib

/-!
Verification of the `BlockTransactions` transaction-set layer
(`src/dpc/src/block/transactions.rs`) of the snarkVM repository.

The Rust struct `BlockTransactions<N>(pub Vec<Transaction<N>>)` is embedded as
a list of `Transaction` records; the opaque external `Transaction<N>` is
embedded by the interface it exposes to this file (validity flag, serial
numbers, commitments, signed value balance, canonical bytes).  Fallible Rust
`Result` values are embedded as `Except String`; a Rust panic (an `assert!`
firing) is embedded as the `none` case of an outer `Option`, kept distinct
from recoverable `Except.error` results.
-/

namespace SnarkVM

/-- The external `Transaction<N>` entity, embedded by the interface consumed by
`BlockTransactions`: its validity predicate `is_valid()`, its ordered serial
numbers and commitments (opaque tags, embedded as `Nat`), and its signed value
balance (`AleoAmount`, embedded as `Int`). -/
structure Transaction where
  is_valid : Bool
  serial_numbers : List Nat
  commitments : List Nat
  value_balance : Int
deriving DecidableEq

/-- The `N : Network` type parameter, restricted to the single associated
constant that `BlockTransactions` logic consumes. -/
structure Network where
  BLOCK_COINBASE_TX_COUNT : Nat

/-- Modelled from the spec: `has_duplicates` from `snarkvm_utilities` (its
source is not under `src/`); it reports whether the list contains a value that
occurs more than once. -/
def has_duplicates : List Nat → Bool
  | [] => false
  | x :: xs => xs.contains x || has_duplicates xs

/-- `BlockTransactions<N>` is a newtype over `Vec<Transaction<N>>`. -/
abbrev BlockTransactions := List Transaction

namespace BlockTransactions

/-- `BlockTransactions::new`: the empty list of transactions. -/
def new : BlockTransactions := []

/-- `BlockTransactions::from`: initializes from a given list of transactions,
verbatim (`Self(transactions.to_vec())`). -/
def fromTransactions (transactions : List Transaction) : BlockTransactions :=
  transactions

/-- `BlockTransactions::push`: adds the given transaction to the list of
transactions, if it is valid; the error case leaves the set untouched, which
the functional embedding renders by returning only an error value. -/
def push (txs : BlockTransactions) (transaction : Transaction) :
    Except String BlockTransactions :=
  if transaction.is_valid then Except.ok (txs ++ [transaction])
  else Except.error ("Failed to push due to an invalid transaction")

/-- `BlockTransactions::to_commitments`: asserts non-emptiness (`none` embeds
the panic), then returns the flattened list of all commitments. -/
def to_commitments (txs : BlockTransactions) :
    Option (Except String (List Nat)) :=
  if txs.isEmpty then none
  else some (Except.ok ((txs.map Transaction.commitments).flatten))

/-- `BlockTransactions::to_serial_numbers`: asserts non-emptiness (`none`
embeds the panic), then returns the flattened list of all serial numbers. -/
def to_serial_numbers (txs : BlockTransactions) :
    Option (Except String (List Nat)) :=
  if txs.isEmpty then none
  else some (Except.ok ((txs.map Transaction.serial_numbers).flatten))

/-- `BlockTransactions::to_coinbase_transaction_count`: the number of
transactions whose value balance is negative.  Note: no emptiness assert. -/
def to_coinbase_transaction_count (txs : BlockTransactions) : Nat :=
  (txs.filter (fun t => decide (t.value_balance < 0))).length

/-- `BlockTransactions::to_transaction_fees`: `filter_map` keeps the value
balances of the non-negative transactions, `reduce` folds them with
`AleoAmount::add` (embedded as `Int` addition, per the spec's fixed-point
signed arithmetic for the external `AleoAmount`), and an empty reduction is
turned into a recoverable error by `ok_or`.  Note: no emptiness assert. -/
def to_transaction_fees (txs : BlockTransactions) : Except String Int :=
  match txs.filterMap
      (fun t => if t.value_balance < 0 then none else some t.value_balance) with
  | [] => Except.error ("Failed to compute the transaction fees for block")
  | v :: vs => Except.ok (vs.foldl (fun a b => a + b) v)

/-- `BlockTransactions::to_net_value_balance`: asserts non-emptiness (`none`
embeds the panic), then `reduce`s all value balances with `AleoAmount::add`;
the `ok_or` error case is kept although the assert makes it unreachable. -/
def to_net_value_balance (txs : BlockTransactions) :
    Option (Except String Int) :=
  if txs.isEmpty then none
  else
    match txs.map Transaction.value_balance with
    | [] => some (Except.error ("Failed to compute net value balance for block"))
    | v :: vs => some (Except.ok (vs.foldl (fun a b => a + b) v))

end BlockTransactions

/-- Modelled from the spec: little-endian base-256 rendering of a number into
a fixed number of bytes, as used by the payload of the variable-length
integer encoding (`snarkvm_utilities`, not under `src/`). -/
def natToLeBytes : Nat → Nat → List Nat
  | 0, _ => []
  | k + 1, n => (n % 256) :: natToLeBytes k (n / 256)

/-- Modelled from the spec: reassembling a number from little-endian base-256
bytes. -/
def natFromLeBytes : List Nat → Nat
  | [] => 0
  | b :: bs => b + 256 * natFromLeBytes bs

/-- Modelled from the spec: `variable_length_integer` from `snarkvm_utilities`
(not under `src/`): the Bitcoin-style varint used as the member-count prefix
of the wire format — one byte below 253, otherwise a marker byte (253, 254,
255) followed by a 2-, 4-, or 8-byte little-endian payload. -/
def variable_length_integer (n : Nat) : List Nat :=
  if n < 253 then [n]
  else if n ≤ 65535 then 253 :: natToLeBytes 2 n
  else if n ≤ 4294967295 then 254 :: natToLeBytes 4 n
  else 255 :: natToLeBytes 8 n

/-- Modelled from the spec: `read_variable_length_integer` from
`snarkvm_utilities` (not under `src/`): dispatch on the marker byte, then read
the fixed-width little-endian payload; `none` embeds an `io` read failure on
truncated input. -/
def read_variable_length_integer : List Nat → Option (Nat × List Nat)
  | [] => none
  | flag :: rest =>
    if flag < 253 then some (flag, rest)
    else
      let k : Nat := if flag = 253 then 2 else if flag = 254 then 4 else 8
      if k ≤ rest.length then some (natFromLeBytes (rest.take k), rest.drop k)
      else none

/-- Modelled from the spec: little-endian base-256 digits of a number, with no
leading-zero padding (the variable-width payload of the self-delimiting scalar
encoding used inside a transaction's canonical bytes). -/
def natLeBytesVar (n : Nat) : List Nat :=
  if h : n = 0 then [] else (n % 256) :: natLeBytesVar (n / 256)
decreasing_by exact Nat.div_lt_self (Nat.pos_of_ne_zero h) (by norm_num)

/-- Modelled from the spec: a self-delimiting encoding of one unbounded scalar
inside a transaction's canonical bytes — a unary run of `1` marker bytes, one
per payload digit, a `0` terminator, then the little-endian digits. -/
def encodeNat (n : Nat) : List Nat :=
  List.replicate (natLeBytesVar n).length 1 ++ 0 :: natLeBytesVar n

/-- Modelled from the spec: decoder state for `decodeNat` — `k` counts the
marker bytes consumed so far. -/
def decodeNatAux (k : Nat) : List Nat → Option (Nat × List Nat)
  | [] => none
  | b :: rest =>
    if b = 1 then decodeNatAux (k + 1) rest
    else if b = 0 then
      if k ≤ rest.length then some (natFromLeBytes (rest.take k), rest.drop k)
      else none
    else none

/-- Modelled from the spec: the self-delimiting decoder matching `encodeNat`. -/
def decodeNat (bytes : List Nat) : Option (Nat × List Nat) :=
  decodeNatAux 0 bytes

/-- Modelled from the spec: a self-delimiting encoding of a signed amount — a
sign byte followed by the magnitude. -/
def encodeInt (i : Int) : List Nat :=
  (if i < 0 then 1 else 0) :: encodeNat i.natAbs

/-- Modelled from the spec: the self-delimiting decoder matching `encodeInt`. -/
def decodeInt (bytes : List Nat) : Option (Int × List Nat) :=
  match bytes with
  | [] => none
  | s :: rest =>
    (decodeNat rest).bind fun p =>
      if s = 0 then some ((p.1 : Int), p.2)
      else if s = 1 then some (-(p.1 : Int), p.2)
      else none

/-- Modelled from the spec: a self-delimiting encoding of an ordered tag list
(serial numbers or commitments) — a scalar count followed by each tag. -/
def encodeNatList (l : List Nat) : List Nat :=
  encodeNat l.length ++ (l.map encodeNat).flatten

/-- Modelled from the spec: read exactly `k` scalars in order. -/
def decodeNats : Nat → List Nat → Option (List Nat × List Nat)
  | 0, bytes => some ([], bytes)
  | k + 1, bytes =>
    (decodeNat bytes).bind fun p =>
      (decodeNats k p.2).bind fun q => some (p.1 :: q.1, q.2)

/-- Modelled from the spec: the self-delimiting decoder matching
`encodeNatList`. -/
def decodeNatList (bytes : List Nat) : Option (List Nat × List Nat) :=
  (decodeNat bytes).bind fun p => decodeNats p.1 p.2

/-- Modelled from the spec: the transaction's own canonical, self-delimiting
byte encoding (`ToBytes for Transaction`, not under `src/`), covering the
interface fields of the data model: validity flag, serial numbers,
commitments, value balance. -/
def Transaction.write_le (t : Transaction) : List Nat :=
  (if t.is_valid then 1 else 0)
    :: (encodeNatList t.serial_numbers
        ++ encodeNatList t.commitments
        ++ encodeInt t.value_balance)

/-- Modelled from the spec: the transaction's own self-delimiting decoder
(`FromBytes for Transaction`, not under `src/`). -/
def Transaction.read_le (bytes : List Nat) : Option (Transaction × List Nat) :=
  match bytes with
  | [] => none
  | v :: rest =>
    if v ≤ 1 then
      (decodeNatList rest).bind fun sns =>
        (decodeNatList sns.2).bind fun cms =>
          (decodeInt cms.2).bind fun vb =>
            some (⟨v == 1, sns.1, cms.1, vb.1⟩, vb.2)
    else none

/-- `ToBytes for BlockTransactions::write_le`: the variable-length integer
member count (after the `len() as u64` cast, hence the reduction modulo
`2 ^ 64`), followed by each member's canonical bytes in order. -/
def BlockTransactions.write_le (txs : BlockTransactions) : List Nat :=
  variable_length_integer (txs.length % 2 ^ 64)
    ++ (txs.map Transaction.write_le).flatten

/-- The loop of `FromBytes for BlockTransactions::read_le`: read exactly `k`
transactions with the transaction's own decoder. -/
def readTransactions : Nat → List Nat → Option (List Transaction × List Nat)
  | 0, bytes => some ([], bytes)
  | k + 1, bytes =>
    (Transaction.read_le bytes).bind fun p =>
      (readTransactions k p.2).bind fun q => some (p.1 :: q.1, q.2)

/-- `FromBytes for BlockTransactions::read_le`: read the member count, then
that many transactions, reconstructing the set in original order. -/
def BlockTransactions.read_le (bytes : List Nat) :
    Option (BlockTransactions × List Nat) :=
  (read_variable_length_integer bytes).bind fun p => readTransactions p.1 p.2

/-- Modelled from the spec: the 32-byte transaction identifier, a
deterministic function of the transaction's content (`to_transaction_id` and
its byte rendering are external code, not under `src/`). -/
def Transaction.to_transaction_id (t : Transaction) : List Nat :=
  (Transaction.write_le t ++ List.replicate 32 0).take 32

/-- Modelled from the spec: the external Merkle accumulator — deterministic in
leaf order and content, assumed collision-resistant; idealized here as the
ordered leaf list itself. -/
def merkle_root (leaves : List (List Nat)) : List (List Nat) :=
  leaves

/-- `BlockTransactions::to_transactions_root`: asserts non-emptiness (`none`
embeds the panic), derives each member's 32-byte identifier (the
`assert_eq!(id_bytes.len(), 32)` panic is also embedded as `none`), and feeds
the ordered identifiers to the Merkle accumulator. -/
def BlockTransactions.to_transactions_root (txs : BlockTransactions) :
    Option (Except String (List (List Nat))) :=
  if txs.isEmpty then none
  else if txs.all (fun t => (Transaction.to_transaction_id t).length == 32) then
    some (Except.ok (merkle_root (txs.map Transaction.to_transaction_id)))
  else none

namespace BlockTransactions

/-- `BlockTransactions::is_valid`: per-transaction validity, then duplicate
serial numbers, then duplicate commitments, then the coinbase count, in that
order, short-circuiting to `false`.  The `Err` arms of the two `match`es are
collapsed to `false` as in the source; a panic inside `to_serial_numbers` or
`to_commitments` (their emptiness assert) propagates, embedded as `none`. -/
def is_valid (N : Network) (txs : BlockTransactions) : Option Bool :=
  if txs.all Transaction.is_valid then
    match to_serial_numbers txs with
    | none => none
    | some (Except.error _) => some false
    | some (Except.ok serialNumbers) =>
      if has_duplicates serialNumbers then some false
      else
        match to_commitments txs with
        | none => none
        | some (Except.error _) => some false
        | some (Except.ok cms) =>
          if has_duplicates cms then some false
          else if to_coinbase_transaction_count txs ≠ N.BLOCK_COINBASE_TX_COUNT
            then some false
          else some true
  else some false

end BlockTransactions

/-- A fee-paying transaction with value balance 2 (test vector). -/
def txA : Transaction := ⟨true, [1], [2], 2⟩

/-- A fee-paying transaction with value balance 3 (test vector). -/
def txB : Transaction := ⟨true, [3], [4], 3⟩

/-- A coinbase transaction with value balance -10 (test vector). -/
def txC : Transaction := ⟨true, [5], [6], -10⟩

/-- An individually invalid transaction (test vector). -/
def txBad : Transaction := ⟨false, [7], [8], 0⟩

/-- A valid transaction sharing commitment `2` with `txA` (test vector). -/
def txDupA : Transaction := ⟨true, [9], [2], 1⟩

/-- Taking exactly the length of the left part of an append returns it. -/
theorem take_len_append (l extra : List Nat) : (l ++ extra).take l.length = l := by
  induction l with
  | nil => rfl
  | cons x xs ih => simp [ih]

/-- Dropping exactly the length of the left part of an append returns the
right part. -/
theorem drop_len_append (l extra : List Nat) : (l ++ extra).drop l.length = extra := by
  induction l with
  | nil => rfl
  | cons x xs ih => simp [ih]

/-- `has_duplicates` is the (boolean) negation of `List.Nodup`. -/
theorem has_duplicates_eq_false (l : List Nat) :
    has_duplicates l = false ↔ l.Nodup := by
  induction l with
  | nil => simp [has_duplicates]
  | cons x xs ih =>
    simp [has_duplicates, List.nodup_cons, ih, Bool.or_eq_false_iff]

/-- A fixed-width little-endian rendering has exactly the requested width. -/
theorem natToLeBytes_length (k : Nat) : ∀ n, (natToLeBytes k n).length = k := by
  induction k with
  | zero => intro n; rfl
  | succ k ih => intro n; simp [natToLeBytes, ih]

/-- Reassembling a fixed-width little-endian rendering returns the value,
provided the value fits in the width. -/
theorem natFromLeBytes_natToLeBytes (k : Nat) :
    ∀ n, n < 256 ^ k → natFromLeBytes (natToLeBytes k n) = n := by
  induction k with
  | zero =>
    intro n h
    simp only [pow_zero, Nat.lt_one_iff] at h
    simp [natToLeBytes, natFromLeBytes, h]
  | succ k ih =>
    intro n h
    have hdiv : n / 256 < 256 ^ k := by
      have : 256 ^ (k + 1) = 256 * 256 ^ k := by ring
      omega
    rw [natToLeBytes, natFromLeBytes, ih (n / 256) hdiv]
    exact Nat.mod_add_div n 256

/-- Round trip for the variable-length integer: reading back what was written
returns the value and the unconsumed tail, for any value fitting in 64 bits. -/
theorem read_variable_length_integer_append (n : Nat) (h : n < 2 ^ 64)
    (extra : List Nat) :
    read_variable_length_integer (variable_length_integer n ++ extra)
      = some (n, extra) := by
  have hread : ∀ flag k m, ¬ flag < 253 →
      (if flag = 253 then 2 else if flag = 254 then 4 else 8) = k →
      m < 256 ^ k →
      read_variable_length_integer (flag :: (natToLeBytes k m ++ extra))
        = some (m, extra) := by
    intro flag k m hflag hk hm
    rw [read_variable_length_integer]
    rw [if_neg hflag]
    simp only [hk]
    have hlen : (natToLeBytes k m ++ extra).length = k + extra.length := by
      simp [natToLeBytes_length]
    rw [if_pos (by omega)]
    have htake : (natToLeBytes k m ++ extra).take k = natToLeBytes k m := by
      have := take_len_append (natToLeBytes k m) extra
      rwa [natToLeBytes_length] at this
    have hdrop : (natToLeBytes k m ++ extra).drop k = extra := by
      have := drop_len_append (natToLeBytes k m) extra
      rwa [natToLeBytes_length] at this
    rw [htake, hdrop, natFromLeBytes_natToLeBytes k m hm]
  unfold variable_length_integer
  by_cases h1 : n < 253
  · simp [h1, read_variable_length_integer]
  · by_cases h2 : n ≤ 65535
    · rw [if_neg h1, if_pos h2, List.cons_append]
      exact hread 253 2 n (by omega) (by norm_num) (by norm_num; omega)
    · by_cases h3 : n ≤ 4294967295
      · rw [if_neg h1, if_neg h2, if_pos h3, List.cons_append]
        exact hread 254 4 n (by omega) (by norm_num) (by norm_num; omega)
      · rw [if_neg h1, if_neg h2, if_neg h3, List.cons_append]
        exact hread 255 8 n (by omega) (by norm_num) (by norm_num; omega)

/-- Reassembling the variable-width little-endian digits returns the value. -/
theorem natFromLeBytes_natLeBytesVar (n : Nat) :
    natFromLeBytes (natLeBytesVar n) = n := by
  induction n using Nat.strong_induction_on with
  | _ n ih =>
    rw [natLeBytesVar]
    by_cases h : n = 0
    · simp [h, natFromLeBytes]
    · rw [dif_neg h, natFromLeBytes,
        ih (n / 256) (Nat.div_lt_self (Nat.pos_of_ne_zero h) (by norm_num))]
      exact Nat.mod_add_div n 256

/-- The unary marker run moves the scalar decoder's digit counter forward. -/
theorem decodeNatAux_replicate (m : Nat) : ∀ (k : Nat) (tail : List Nat),
    decodeNatAux k (List.replicate m 1 ++ 0 :: tail)
      = decodeNatAux (k + m) (0 :: tail) := by
  induction m with
  | zero => intro k tail; rfl
  | succ m ih =>
    intro k tail
    rw [List.replicate_succ, List.cons_append, decodeNatAux]
    have harith : k + 1 + m = k + (m + 1) := by omega
    simp [ih (k + 1) tail, harith]

/-- Round trip for the self-delimiting scalar encoding. -/
theorem decodeNat_encodeNat (n : Nat) (extra : List Nat) :
    decodeNat (encodeNat n ++ extra) = some (n, extra) := by
  unfold decodeNat encodeNat
  rw [List.append_assoc, List.cons_append, decodeNatAux_replicate, decodeNatAux]
  have hlen : (natLeBytesVar n).length ≤ (natLeBytesVar n ++ extra).length := by
    simp
  simp [hlen, take_len_append, drop_len_append, natFromLeBytes_natLeBytesVar]

/-- Round trip for the signed-amount encoding. -/
theorem decodeInt_encodeInt (i : Int) (extra : List Nat) :
    decodeInt (encodeInt i ++ extra) = some (i, extra) := by
  have hneg : ∀ m : Nat,
      decodeInt ((1 :: encodeNat m) ++ extra) = some (-(m : Int), extra) := by
    intro m
    rw [List.cons_append]
    simp [decodeInt, decodeNat_encodeNat]
  have hpos : ∀ m : Nat,
      decodeInt ((0 :: encodeNat m) ++ extra) = some ((m : Int), extra) := by
    intro m
    rw [List.cons_append]
    simp [decodeInt, decodeNat_encodeNat]
  unfold encodeInt
  by_cases h : i < 0
  · rw [if_pos h, hneg]
    have hi : -(i.natAbs : Int) = i := by omega
    rw [hi]
  · rw [if_neg h, hpos]
    have hi : (i.natAbs : Int) = i := by omega
    rw [hi]

/-- Round trip for reading back an exact number of scalars. -/
theorem decodeNats_append (l : List Nat) : ∀ extra : List Nat,
    decodeNats l.length ((l.map encodeNat).flatten ++ extra) = some (l, extra) := by
  induction l with
  | nil => intro extra; rfl
  | cons x xs ih =>
    intro extra
    simp only [List.map_cons, List.flatten_cons, List.length_cons, List.append_assoc]
    rw [decodeNats, decodeNat_encodeNat]
    simp only [Option.some_bind]
    rw [ih extra]
    rfl

/-- Round trip for the tag-list encoding. -/
theorem decodeNatList_append (l : List Nat) (extra : List Nat) :
    decodeNatList (encodeNatList l ++ extra) = some (l, extra) := by
  unfold decodeNatList encodeNatList
  rw [List.append_assoc, decodeNat_encodeNat]
  simp only [Option.some_bind]
  exact decodeNats_append l extra

/-- Round trip for the transaction's canonical, self-delimiting encoding. -/
theorem Transaction.read_le_write_le (t : Transaction) (extra : List Nat) :
    Transaction.read_le (Transaction.write_le t ++ extra) = some (t, extra) := by
  obtain ⟨val, sns, cms, vb⟩ := t
  cases val <;>
    simp [Transaction.write_le, Transaction.read_le, List.append_assoc,
      decodeNatList_append, decodeInt_encodeInt]

/-- Round trip for reading back an exact number of transactions. -/
theorem readTransactions_append (txs : List Transaction) : ∀ extra : List Nat,
    readTransactions txs.length ((txs.map Transaction.write_le).flatten ++ extra)
      = some (txs, extra) := by
  induction txs with
  | nil => intro extra; rfl
  | cons t ts ih =>
    intro extra
    simp only [List.map_cons, List.flatten_cons, List.length_cons, List.append_assoc]
    rw [readTransactions, Transaction.read_le_write_le]
    simp only [Option.some_bind]
    rw [ih extra]
    rfl

/-- A non-empty list is not `isEmpty`. -/
theorem isEmpty_eq_false_of_ne_nil {txs : List Transaction} (h : txs ≠ []) :
    txs.isEmpty = false := by
  cases txs with
  | nil => exact absurd rfl h
  | cons t ts => rfl

/-- Folding integer addition from an accumulator is the accumulator plus the
sum. -/
theorem foldl_add_eq_sum (l : List Int) : ∀ a : Int,
    l.foldl (fun x y => x + y) a = a + l.sum := by
  induction l with
  | nil => intro a; simp
  | cons x xs ih =>
    intro a
    simp only [List.foldl_cons, List.sum_cons, ih]
    ring

/-- The `filter_map` of `to_transaction_fees` keeps exactly the value balances
of the members with non-negative value balance. -/
theorem filterMap_value_balance (txs : List Transaction) :
    txs.filterMap
        (fun t => if t.value_balance < 0 then none else some t.value_balance)
      = (txs.filter (fun t => decide (0 ≤ t.value_balance))).map
          Transaction.value_balance := by
  induction txs with
  | nil => rfl
  | cons t ts ih =>
    by_cases h : t.value_balance < 0
    · have h2 : ¬ (0 ≤ t.value_balance) := by omega
      simp [List.filterMap_cons, List.filter_cons, h, h2, ih]
    · have h2 : (0 ≤ t.value_balance) := by omega
      simp [List.filterMap_cons, List.filter_cons, h, h2, ih]

/-- On a non-empty set, `is_valid` returns the conjunction of the four checks
as a boolean (never a panic, never an error collapse). -/
theorem is_valid_of_ne_nil (N : Network) (txs : BlockTransactions) (h : txs ≠ []) :
    BlockTransactions.is_valid N txs =
      some (txs.all Transaction.is_valid
        && !has_duplicates ((txs.map Transaction.serial_numbers).flatten)
        && !has_duplicates ((txs.map Transaction.commitments).flatten)
        && (BlockTransactions.to_coinbase_transaction_count txs
              == N.BLOCK_COINBASE_TX_COUNT)) := by
  have he := isEmpty_eq_false_of_ne_nil h
  simp only [BlockTransactions.is_valid, BlockTransactions.to_serial_numbers,
    BlockTransactions.to_commitments, he, Bool.false_eq_true, if_false]
  by_cases h1 : txs.all Transaction.is_valid = true
  · by_cases h2 :
        has_duplicates ((txs.map Transaction.serial_numbers).flatten) = true
    · simp [h1, h2]
    · by_cases h3 :
          has_duplicates ((txs.map Transaction.commitments).flatten) = true
      · simp [h1, h2, h3]
      · by_cases h4 : BlockTransactions.to_coinbase_transaction_count txs
            = N.BLOCK_COINBASE_TX_COUNT
        · simp [h1, h2, h3, h4]
        · simp [h1, h2, h3, h4]
  · simp [h1]

/-- C1: for every non-empty transaction set, `is_valid()` returns `true` if
and only if every member's own validity predicate holds, the flattened serial
numbers have no duplicates, the flattened commitments have no duplicates, and
the number of members with negative value balance equals the network's
`BLOCK_COINBASE_TX_COUNT`; the definition of `is_valid` performs the checks in
that order, short-circuiting to `false` on the first failure. -/
theorem is_valid_iff_invariants (N : Network) (txs : BlockTransactions)
    (h : txs ≠ []) :
    BlockTransactions.is_valid N txs = some true ↔
      ((∀ t ∈ txs, t.is_valid = true)
        ∧ ((txs.map Transaction.serial_numbers).flatten).Nodup
        ∧ ((txs.map Transaction.commitments).flatten).Nodup
        ∧ (txs.filter (fun t => decide (t.value_balance < 0))).length
            = N.BLOCK_COINBASE_TX_COUNT) := by
  rw [is_valid_of_ne_nil N txs h]
  simp [List.all_eq_true, Bool.not_eq_true', has_duplicates_eq_false,
    BlockTransactions.to_coinbase_transaction_count, and_assoc]

/-- C1 witness: a concrete non-empty set (one coinbase, two fee payers,
disjoint tags) satisfies the four invariants, hence is valid. -/
theorem is_valid_iff_invariants_witness :
    BlockTransactions.is_valid ⟨1⟩ [txC, txA, txB] = some true :=
  (is_valid_iff_invariants ⟨1⟩ [txC, txA, txB] (by decide)).mpr (by decide)

/-- C2 (counterexample): on the empty set, `to_coinbase_transaction_count`
silently returns 0 and `to_transaction_fees` returns a recoverable error —
neither triggers an assertion-style failure, refuting the claim that every
aggregate query does. -/
theorem empty_aggregate_queries_cex :
    BlockTransactions.to_coinbase_transaction_count BlockTransactions.new = 0
      ∧ BlockTransactions.to_transaction_fees BlockTransactions.new
          = Except.error ("Failed to compute the transaction fees for block") :=
  ⟨rfl, rfl⟩

/-- C2 (amended): on the empty set, `to_transactions_root`, `to_commitments`,
`to_serial_numbers` and `to_net_value_balance` hit their emptiness assert
(the fatal path, embedded as `none`), while `to_coinbase_transaction_count`
silently returns 0 and `to_transaction_fees` returns a recoverable error. -/
theorem empty_aggregate_queries_spec :
    BlockTransactions.to_transactions_root BlockTransactions.new = none
      ∧ BlockTransactions.to_commitments BlockTransactions.new = none
      ∧ BlockTransactions.to_serial_numbers BlockTransactions.new = none
      ∧ BlockTransactions.to_net_value_balance BlockTransactions.new = none
      ∧ BlockTransactions.to_coinbase_transaction_count BlockTransactions.new = 0
      ∧ BlockTransactions.to_transaction_fees BlockTransactions.new
          = Except.error ("Failed to compute the transaction fees for block") :=
  ⟨rfl, rfl, rfl, rfl, rfl, rfl⟩

/-- C3 (counterexample): on the empty set, `is_valid` reaches the emptiness
assert inside `to_serial_numbers`, so it panics (embedded as `none`) instead
of returning a boolean — refuting the claim that `is_valid` is non-throwing
on every set including the empty one. -/
theorem is_valid_empty_panics :
    BlockTransactions.is_valid ⟨1⟩ BlockTransactions.new = none :=
  rfl

/-- C3 (amended): for every non-empty transaction set, `is_valid` is a total,
non-throwing predicate: it returns a boolean, with every internal failure
collapsed to a `false` return. -/
theorem is_valid_total_of_ne_nil (N : Network) (txs : BlockTransactions)
    (h : txs ≠ []) :
    BlockTransactions.is_valid N txs = some true
      ∨ BlockTransactions.is_valid N txs = some false := by
  rw [is_valid_of_ne_nil N txs h]
  cases hb : (txs.all Transaction.is_valid
      && !has_duplicates ((txs.map Transaction.serial_numbers).flatten)
      && !has_duplicates ((txs.map Transaction.commitments).flatten)
      && (BlockTransactions.to_coinbase_transaction_count txs
            == N.BLOCK_COINBASE_TX_COUNT)) with
  | true => exact Or.inl rfl
  | false => exact Or.inr rfl

/-- C3 witness: a concrete non-empty set on which `is_valid` returns a
boolean. -/
theorem is_valid_total_of_ne_nil_witness :
    BlockTransactions.is_valid ⟨1⟩ [txA] = some true
      ∨ BlockTransactions.is_valid ⟨1⟩ [txA] = some false :=
  is_valid_total_of_ne_nil ⟨1⟩ [txA] (by decide)

/-- C4: `push` appends the transaction at the end and succeeds exactly when
the transaction's own validity predicate holds; otherwise it surfaces the
invalid-transaction error and produces no new state.  Success depends only on
the pushed transaction, not on the set — no cross-transaction invariant is
examined. -/
theorem push_spec (txs : BlockTransactions) (t : Transaction) :
    (t.is_valid = true → BlockTransactions.push txs t = Except.ok (txs ++ [t]))
      ∧ (t.is_valid = false → BlockTransactions.push txs t
          = Except.error ("Failed to push due to an invalid transaction"))
      ∧ ((∃ res, BlockTransactions.push txs t = Except.ok res)
            ↔ t.is_valid = true) := by
  unfold BlockTransactions.push
  cases hv : t.is_valid <;> simp [hv]

/-- C4 witness: a valid transaction is appended; an invalid one is rejected
with the error. -/
theorem push_spec_witness :
    BlockTransactions.push BlockTransactions.new txA = Except.ok [txA]
      ∧ BlockTransactions.push [txA] txBad
          = Except.error ("Failed to push due to an invalid transaction") := by
  constructor
  · simpa using (push_spec BlockTransactions.new txA).1 rfl
  · exact (push_spec [txA] txBad).2.1 rfl

/-- C5: `to_transaction_fees` returns the sum of the value balances of
exactly the members with non-negative value balance, and fails with an error
exactly when no such member exists; on balances -10, 2, 3 it returns 5. -/
theorem to_transaction_fees_spec (txs : BlockTransactions) :
    BlockTransactions.to_transaction_fees txs =
      (if (txs.filter (fun t => decide (0 ≤ t.value_balance))) = [] then
        Except.error ("Failed to compute the transaction fees for block")
      else
        Except.ok (((txs.filter (fun t => decide (0 ≤ t.value_balance))).map
          Transaction.value_balance).sum))
      ∧ BlockTransactions.to_transaction_fees [txC, txA, txB] = Except.ok 5 := by
  constructor
  · unfold BlockTransactions.to_transaction_fees
    rw [filterMap_value_balance]
    cases hfil : txs.filter (fun t => decide (0 ≤ t.value_balance)) with
    | nil => simp
    | cons u us =>
      simp only [List.map_cons]
      rw [if_neg (by simp)]
      rw [foldl_add_eq_sum]
      simp [List.sum_cons]
  · rfl

/-- C6: `to_net_value_balance` on a non-empty set returns the sum of the
value balances of all members (coinbase included), and
`to_coinbase_transaction_count` counts the members with negative value
balance; on balances -10, 2, 3 they return -5 and 1. -/
theorem to_net_value_balance_spec (txs : BlockTransactions) (h : txs ≠ []) :
    BlockTransactions.to_net_value_balance txs
        = some (Except.ok ((txs.map Transaction.value_balance).sum))
      ∧ BlockTransactions.to_coinbase_transaction_count txs
          = txs.countP (fun t => decide (t.value_balance < 0))
      ∧ BlockTransactions.to_net_value_balance [txC, txA, txB]
          = some (Except.ok (-5))
      ∧ BlockTransactions.to_coinbase_transaction_count [txC, txA, txB] = 1 := by
  refine ⟨?_, ?_, rfl, rfl⟩
  · cases txs with
    | nil => exact absurd rfl h
    | cons t ts =>
      simp [BlockTransactions.to_net_value_balance, foldl_add_eq_sum]
  · rw [BlockTransactions.to_coinbase_transaction_count,
      List.countP_eq_length_filter]

/-- C6 witness: on a singleton fee-paying set the net value balance is its
only balance. -/
theorem to_net_value_balance_spec_witness :
    BlockTransactions.to_net_value_balance [txA] = some (Except.ok 2) := by
  simpa [txA] using (to_net_value_balance_spec [txA] (by decide)).1

/-- C7: round-trip serialization — for a valid non-empty set whose length
fits the `u64` count cast, decoding the bytes written by `write_le` (the
variable-length member count followed by each member's canonical bytes in
order) with `read_le` returns the same set in the same order, with no bytes
left over. -/
theorem block_transactions_round_trip (N : Network) (txs : BlockTransactions)
    (hne : txs ≠ []) (hvalid : BlockTransactions.is_valid N txs = some true)
    (hlen : txs.length < 2 ^ 64) :
    BlockTransactions.read_le (BlockTransactions.write_le txs)
      = some (txs, []) := by
  unfold BlockTransactions.read_le BlockTransactions.write_le
  rw [Nat.mod_eq_of_lt hlen,
    read_variable_length_integer_append txs.length hlen, Option.some_bind]
  have hread := readTransactions_append txs []
  simpa using hread

/-- C7 witness: the concrete valid set survives the round trip. -/
theorem block_transactions_round_trip_witness :
    BlockTransactions.read_le (BlockTransactions.write_le [txC, txA, txB])
      = some ([txC, txA, txB], []) :=
  block_transactions_round_trip ⟨1⟩ [txC, txA, txB] (by decide) (by decide)
    (by decide)

/-- C8: on a non-empty set, `to_commitments` returns the concatenation, in
member order, of each member's commitment list, with duplicates preserved,
and `to_serial_numbers` is the symmetric flattening over serial numbers; a
commitment shared by two members occurs twice in the output. -/
theorem to_commitments_serial_numbers_spec (txs : BlockTransactions)
    (h : txs ≠ []) :
    BlockTransactions.to_commitments txs
        = some (Except.ok (txs.flatMap Transaction.commitments))
      ∧ BlockTransactions.to_serial_numbers txs
        = some (Except.ok (txs.flatMap Transaction.serial_numbers))
      ∧ BlockTransactions.to_commitments [txA, txDupA]
        = some (Except.ok [2, 2]) := by
  have he := isEmpty_eq_false_of_ne_nil h
  refine ⟨?_, ?_, rfl⟩
  · simp [BlockTransactions.to_commitments, he, List.flatMap_def]
  · simp [BlockTransactions.to_serial_numbers, he, List.flatMap_def]

/-- C8 witness: the singleton set flattens to its member's commitments. -/
theorem to_commitments_serial_numbers_spec_witness :
    BlockTransactions.to_commitments [txA] = some (Except.ok [2]) := by
  simpa [txA] using (to_commitments_serial_numbers_spec [txA] (by decide)).1

/-- C9: `from` wraps the given sequence verbatim — same members, same order,
same length — and invokes no validity check: it does so even for a sequence
containing an invalid transaction. -/
theorem fromTransactions_spec (ts : List Transaction) :
    BlockTransactions.fromTransactions ts = ts
      ∧ (BlockTransactions.fromTransactions ts).length = ts.length
      ∧ BlockTransactions.fromTransactions [txBad] = [txBad]
      ∧ txBad.is_valid = false :=
  ⟨rfl, rfl, rfl, rfl⟩

/-- C10: on every non-empty set, `to_serial_numbers` and `to_commitments`
return `Ok`; they never return an `Err`, so the error-collapsing arms inside
`is_valid` are unreachable for non-empty sets. -/
theorem aggregates_ok_of_ne_nil (txs : BlockTransactions) (h : txs ≠ []) :
    (∃ sns, BlockTransactions.to_serial_numbers txs = some (Except.ok sns))
      ∧ (∃ cms, BlockTransactions.to_commitments txs = some (Except.ok cms))
      ∧ (∀ e, BlockTransactions.to_serial_numbers txs ≠ some (Except.error e))
      ∧ (∀ e, BlockTransactions.to_commitments txs ≠ some (Except.error e)) := by
  have he := isEmpty_eq_false_of_ne_nil h
  simp [BlockTransactions.to_serial_numbers, BlockTransactions.to_commitments, he]

/-- C10 witness: the singleton set's serial numbers are an `Ok` value, never
an error. -/
theorem aggregates_ok_of_ne_nil_witness :
    BlockTransactions.to_serial_numbers [txA]
      ≠ some (Except.error ("empty")) :=
  ((aggregates_ok_of_ne_nil [txA] (by decide)).2.2.1) ("empty")

end SnarkVM
